import Mathlib

/-!
Verification development for the MindFlow recommendation engine
(`Algorithm/server_advanced.py`; `Algorithm/server_production.py` is the older
variant of the same engine).

Embedding conventions:
* Embedding vectors (`List[float]` of length 64) are points of
  `EuclideanSpace ℝ (Fin 64)`, so `np.dot` is the real inner product and
  `np.linalg.norm` is the Euclidean norm; floating-point rounding is not
  modelled (all arithmetic is exact real arithmetic).
* DynamoDB and the in-process TTL cache are an explicit state record; a
  DynamoDB call that raises is modelled by the flag `storeUp = false`
  (the source catches every such exception).
* The process-global numpy PRNG (seeded once with 42 in
  `NeuralEmbedding.__init__`) is modelled as a stream of Gaussian draws
  together with a counter of how many draws were consumed.
* The per-candidate exploration noise `np.random.random() * 5` and the MD5
  digest are supplied as explicit parameters (`noise`, `md5`).
-/

namespace MindFlow

open scoped RealInnerProductSpace

/-- `ServerConfig.EMBEDDING_DIM` (server_advanced.py line 37). -/
abbrev EMBEDDING_DIM : ℕ := 64

/-- `ServerConfig.LEARNING_RATE` (server_advanced.py line 38). -/
noncomputable def LEARNING_RATE : ℝ := 0.1

/-- `ServerConfig.CACHE_TTL` default (server_advanced.py line 36), seconds. -/
noncomputable def CACHE_TTL : ℝ := 300

/-- An embedding vector: 64 floats. -/
abbrev Vec := EuclideanSpace ℝ (Fin EMBEDDING_DIM)

/-- `NeuralEmbedding.similarity` (server_advanced.py lines 160-171): cosine
similarity; returns exactly `0.0` when either argument has zero norm. -/
noncomputable def similarity (a b : Vec) : ℝ :=
  if ‖a‖ = 0 ∨ ‖b‖ = 0 then 0 else ⟪a, b⟫ / (‖a‖ * ‖b‖)

/-- `NeuralEmbedding.update_embedding` (server_advanced.py lines 173-186):
`updated = current + lr * weight * (target - current)`, then rescaled to unit
norm when its norm exceeds 1. -/
noncomputable def update_embedding (current target : Vec) (weight lr : ℝ) : Vec :=
  let updated := current + (lr * weight) • (target - current)
  if 1 < ‖updated‖ then ‖updated‖⁻¹ • updated else updated

/-- `boundedUpdate` exactly as spec section 4.1 words it: the updated vector,
rescaled to unit norm if `norm(updated) > 1`, otherwise left unchanged. -/
noncomputable def boundedUpdateSpec (current target : Vec) (weight learningRate : ℝ) : Vec :=
  let updated := current + (learningRate * weight) • (target - current)
  if ‖updated‖ > 1 then ‖updated‖⁻¹ • updated else updated

/-- C1: `update_embedding` agrees with the spec's `boundedUpdate`: it returns
`current + lr*weight*(target - current)` unchanged when that vector's norm is
at most 1, the same vector rescaled to unit norm when its norm exceeds 1, and
in all cases the output norm is at most 1 (hence at most `1 + epsilon`). -/
theorem C1_bounded_update (current target : Vec) (weight lr : ℝ) :
    update_embedding current target weight lr = boundedUpdateSpec current target weight lr ∧
    (‖current + (lr * weight) • (target - current)‖ ≤ 1 →
      update_embedding current target weight lr
        = current + (lr * weight) • (target - current)) ∧
    (1 < ‖current + (lr * weight) • (target - current)‖ →
      update_embedding current target weight lr
        = ‖current + (lr * weight) • (target - current)‖⁻¹ •
            (current + (lr * weight) • (target - current))) ∧
    ‖update_embedding current target weight lr‖ ≤ 1 := by
  set u : Vec := current + (lr * weight) • (target - current) with hu
  refine ⟨rfl, ?_, ?_, ?_⟩
  · intro h
    simp only [update_embedding, ← hu]
    rw [if_neg (by simpa using not_lt.mpr h)]
  · intro h
    simp only [update_embedding, ← hu]
    rw [if_pos h]
  · by_cases h : 1 < ‖u‖
    · have hne : ‖u‖ ≠ 0 := by positivity
      simp only [update_embedding, ← hu]
      rw [if_pos h, norm_smul, norm_inv, norm_norm, inv_mul_cancel₀ hne]
    · simp only [update_embedding, ← hu]
      rw [if_neg h]
      exact not_lt.mp h

/-- Cosine similarity lies in `[-1, 1]`. -/
theorem sim_bounds (a b : Vec) : -1 ≤ similarity a b ∧ similarity a b ≤ 1 := by
  rw [similarity]
  split_ifs with h
  · norm_num
  · push_neg at h
    have ha : 0 < ‖a‖ := lt_of_le_of_ne (norm_nonneg a) (Ne.symm h.1)
    have hb : 0 < ‖b‖ := lt_of_le_of_ne (norm_nonneg b) (Ne.symm h.2)
    have hpos : 0 < ‖a‖ * ‖b‖ := mul_pos ha hb
    have habs : |⟪a, b⟫ / (‖a‖ * ‖b‖)| ≤ 1 := by
      rw [abs_div, abs_of_pos hpos, div_le_one hpos]
      exact abs_real_inner_le_norm a b
    exact abs_le.mp habs

/-- Cosine similarity is symmetric. -/
theorem sim_symm (a b : Vec) : similarity a b = similarity b a := by
  by_cases h : ‖a‖ = 0 ∨ ‖b‖ = 0
  · rw [similarity, similarity, if_pos h, if_pos h.symm]
  · rw [similarity, similarity, if_neg h, if_neg fun hc => h hc.symm,
      real_inner_comm, mul_comm]

/-- Cosine similarity of a nonzero vector with itself is exactly 1. -/
theorem sim_self (v : Vec) (hv : v ≠ 0) : similarity v v = 1 := by
  have hn : ‖v‖ ≠ 0 := norm_ne_zero_iff.mpr hv
  rw [similarity, if_neg (by simp [hn]), real_inner_self_eq_norm_mul_norm,
    div_self (mul_ne_zero hn hn)]

/-- C7: on the embedded `similarity`: the result lies in `[-1, 1]`, is
symmetric, is exactly 0 when either argument has zero norm, and equals 1 on a
nonzero vector paired with itself (exactly, hence within floating tolerance). -/
theorem C7_similarity (a b v : Vec) (hv : v ≠ 0) :
    (-1 ≤ similarity a b ∧ similarity a b ≤ 1) ∧
    similarity a b = similarity b a ∧
    (‖a‖ = 0 ∨ ‖b‖ = 0 → similarity a b = 0) ∧
    similarity v v = 1 :=
  ⟨sim_bounds a b, sim_symm a b, fun h => by rw [similarity, if_pos h], sim_self v hv⟩

/-- A concrete unit coordinate vector, used to instantiate theorems. -/
noncomputable def unitVec : Vec := EuclideanSpace.single 0 1

theorem unitVec_ne_zero : unitVec ≠ 0 := by
  intro h
  have h1 := congrArg norm h
  rw [unitVec, EuclideanSpace.norm_single, norm_zero] at h1
  norm_num at h1

/-- Witness for C7 at the concrete vectors `unitVec` and `0`. -/
theorem C7_similarity_witness :
    similarity unitVec unitVec = 1 ∧ similarity 0 unitVec = 0 := by
  have h := C7_similarity 0 unitVec unitVec unitVec_ne_zero
  exact ⟨h.2.2.2, h.2.2.1 (Or.inl (by simp))⟩

/-- Rescaling the first argument by a positive factor does not change cosine
similarity; in particular the norm clamp in `update_embedding` never changes
the similarity of the updated vector to any target. -/
theorem sim_smul_left (c : ℝ) (hc : 0 < c) (v t : Vec) :
    similarity (c • v) t = similarity v t := by
  have hnorm : ‖c • v‖ = c * ‖v‖ := by rw [norm_smul, Real.norm_eq_abs, abs_of_pos hc]
  by_cases h : ‖v‖ = 0 ∨ ‖t‖ = 0
  · have h' : ‖c • v‖ = 0 ∨ ‖t‖ = 0 := by
      rcases h with h | h
      · exact Or.inl (by rw [hnorm, h, mul_zero])
      · exact Or.inr h
    rw [similarity, similarity, if_pos h', if_pos h]
  · push_neg at h
    have h' : ¬(‖c • v‖ = 0 ∨ ‖t‖ = 0) := by
      push_neg
      exact ⟨by rw [hnorm]; exact mul_ne_zero hc.ne' h.1, h.2⟩
    rw [similarity, similarity, if_neg h', if_neg (by push_neg; exact h),
      real_inner_smul_left, hnorm, mul_assoc, mul_div_mul_left _ _ hc.ne']

/-- The similarity of `update_embedding current target weight lr` to any
vector equals the similarity of the unclamped update to it. -/
theorem sim_update_eq_sim_unclamped (current target : Vec) (weight lr : ℝ) (t : Vec) :
    similarity (update_embedding current target weight lr) t
      = similarity (current + (lr * weight) • (target - current)) t := by
  set u : Vec := current + (lr * weight) • (target - current) with hu
  rw [update_embedding]
  by_cases h : 1 < ‖u‖
  · rw [← hu, if_pos h]
    exact sim_smul_left _ (inv_pos.mpr (lt_trans one_pos h)) u t
  · rw [← hu, if_neg h]

set_option maxHeartbeats 1000000 in
/-- Core monotonicity step: one convex step `u + a • (t - u)` with
`0 ≤ a ≤ 1` never decreases cosine similarity to `t`. -/
theorem sim_step_mono (u t : Vec) (a : ℝ) (ha : 0 ≤ a) (ha1 : a ≤ 1) :
    similarity u t ≤ similarity (u + a • (t - u)) t := by
  set u' : Vec := u + a • (t - u) with huDef
  have hrw : u' = (1 - a) • u + a • t := by
    rw [huDef]; module
  by_cases hT0 : ‖t‖ = 0
  · rw [similarity, similarity, if_pos (Or.inr hT0), if_pos (Or.inr hT0)]
  have hT : 0 < ‖t‖ := lt_of_le_of_ne (norm_nonneg t) (Ne.symm hT0)
  by_cases hU0 : ‖u‖ = 0
  · -- here u = 0, so the step lands on a • t
    have hu0 : u = 0 := norm_eq_zero.mp hU0
    rw [similarity, if_pos (Or.inl hU0)]
    rcases eq_or_lt_of_le ha with haz | hapos
    · have : u' = u := by rw [hrw, ← haz, hu0]; module
      rw [this, hu0, similarity, if_pos (Or.inl (by simp))]
    · have hat : u' = a • t := by rw [hrw, hu0]; module
      rw [hat, sim_smul_left a hapos t t, sim_self t (norm_ne_zero_iff.mp hT0)]
      norm_num
  have hU : 0 < ‖u‖ := lt_of_le_of_ne (norm_nonneg u) (Ne.symm hU0)
  have hp'eq : ⟪u', t⟫ = (1 - a) * ⟪u, t⟫ + a * ‖t‖ ^ 2 := by
    rw [hrw, inner_add_left, real_inner_smul_left, real_inner_smul_left,
      real_inner_self_eq_norm_sq]
  by_cases hU'0 : ‖u'‖ = 0
  · -- the step lands on 0 only if u was a nonpositive multiple of t
    rw [similarity, similarity, if_pos (Or.inl hU'0), if_neg (by push_neg; exact ⟨hU0, hT0⟩)]
    have ha1' : a ≠ 1 := by
      intro h1
      have : u' = t := by rw [hrw, h1]; module
      rw [this] at hU'0
      exact hT0 hU'0
    have hinner0 : ⟪u', t⟫ = 0 := by
      rw [norm_eq_zero.mp hU'0, inner_zero_left]
    have hple : ⟪u, t⟫ ≤ 0 := by
      rw [hp'eq] at hinner0
      have h1a : 0 < 1 - a := lt_of_le_of_ne (by linarith) (Ne.symm (sub_ne_zero.mpr (Ne.symm ha1')))
      nlinarith [sq_nonneg ‖t‖, mul_nonneg ha (sq_nonneg ‖t‖)]
    exact div_nonpos_iff.mpr (Or.inr ⟨hple, (mul_pos hU hT).le⟩)
  have hU' : 0 < ‖u'‖ := lt_of_le_of_ne (norm_nonneg u') (Ne.symm hU'0)
  -- main case: all three norms positive
  rw [similarity, similarity, if_neg (by push_neg; exact ⟨hU0, hT0⟩),
    if_neg (by push_neg; exact ⟨hU'0, hT0⟩), hp'eq,
    div_le_div_iff₀ (mul_pos hU hT) (mul_pos hU' hT)]
  set p : ℝ := ⟪u, t⟫ with hp
  set U : ℝ := ‖u‖
  set T : ℝ := ‖t‖
  set U' : ℝ := ‖u'‖
  have hU'sq : U' ^ 2 = (1 - a) ^ 2 * U ^ 2 + 2 * ((1 - a) * a * p) + a ^ 2 * T ^ 2 := by
    have h1 : U' ^ 2 = ‖(1 - a) • u + a • t‖ ^ 2 := by rw [← hrw]
    rw [h1, norm_add_sq_real, real_inner_smul_left, real_inner_smul_right]
    simp only [norm_smul, Real.norm_eq_abs, abs_of_nonneg ha,
      abs_of_nonneg (by linarith : (0:ℝ) ≤ 1 - a)]
    ring
  have hCS1 : p ≤ U * T := real_inner_le_norm u t
  have hCS2 : -(U * T) ≤ p := by
    have h := abs_real_inner_le_norm u t
    have := neg_abs_le p
    simp only [← hp] at h
    linarith
  have hkey : p * U' ≤ ((1 - a) * p + a * T ^ 2) * U := by
    rcases le_or_lt p 0 with hple | hppos
    · -- nonpositive inner product: use the triangle inequality bound on U'
      have hstep : (1 - a) • u = u' - a • t := by rw [hrw]; module
      have htri0 : ‖u' - a • t‖ ≤ ‖u'‖ + ‖a • t‖ := norm_sub_le u' (a • t)
      have htri : (1 - a) * U ≤ U' + a * T := by
        calc (1 - a) * U = ‖(1 - a) • u‖ := by
              rw [norm_smul, Real.norm_eq_abs, abs_of_nonneg (by linarith : (0:ℝ) ≤ 1 - a)]
          _ = ‖u' - a • t‖ := by rw [hstep]
          _ ≤ ‖u'‖ + ‖a • t‖ := htri0
          _ = U' + a * T := by
              rw [norm_smul, Real.norm_eq_abs, abs_of_nonneg ha]
      have hint1 : 0 ≤ (-p) * ((a * T) - ((1 - a) * U - U')) :=
        mul_nonneg (neg_nonneg.mpr hple) (by linarith)
      have hint2 : 0 ≤ (U * T - (-p)) * (a * T) :=
        mul_nonneg (by linarith) (mul_nonneg ha hT.le)
      nlinarith [hint1, hint2, mul_nonneg ha (mul_nonneg hT.le hU.le)]
    · -- positive inner product: compare squares
      have hq : 0 ≤ (1 - a) * p + a * T ^ 2 :=
        add_nonneg (mul_nonneg (by linarith) hppos.le) (mul_nonneg ha (sq_nonneg T))
      have h1 : 0 ≤ U ^ 2 * T ^ 2 - p ^ 2 := by nlinarith [hCS1, hCS2]
      have h2 : 0 ≤ 2 * a * (1 - a) * p + a ^ 2 * T ^ 2 := by
        have := mul_nonneg (mul_nonneg ha (by linarith : (0:ℝ) ≤ 1 - a)) hppos.le
        nlinarith [sq_nonneg (a * T)]
      have e1 : (p * U') ^ 2
          = p ^ 2 * ((1 - a) ^ 2 * U ^ 2 + 2 * ((1 - a) * a * p) + a ^ 2 * T ^ 2) := by
        rw [← hU'sq]; ring
      have e2 : (((1 - a) * p + a * T ^ 2) * U) ^ 2 - (p * U') ^ 2
          = (U ^ 2 * T ^ 2 - p ^ 2) * (2 * a * (1 - a) * p + a ^ 2 * T ^ 2) := by
        rw [e1]; ring
      have e3 : (p * U') ^ 2 ≤ (((1 - a) * p + a * T ^ 2) * U) ^ 2 := by
        nlinarith [mul_nonneg h1 h2]
      exact (pow_le_pow_iff_left₀ (mul_nonneg hppos.le hU'.le)
        (mul_nonneg hq hU.le) two_ne_zero).mp e3
  nlinarith [mul_le_mul_of_nonneg_right hkey hT.le]

/-- A step with a nonpositive coefficient never increases similarity to `t`:
it is the inverse of a convex step from the resulting point. -/
theorem sim_step_anti (u t : Vec) (a : ℝ) (ha : a ≤ 0) :
    similarity (u + a • (t - u)) t ≤ similarity u t := by
  set u' : Vec := u + a • (t - u) with huDef
  have h1a : 0 < 1 - a := by linarith
  set c : ℝ := -a / (1 - a) with hc
  have hc0 : 0 ≤ c := div_nonneg (by linarith) h1a.le
  have hc1 : c ≤ 1 := by rw [hc, div_le_one h1a]; linarith
  have key : u' + c • (t - u') = u := by
    rw [huDef, hc]
    match_scalars
    · field_simp
      ring
    · field_simp
  calc similarity u' t ≤ similarity (u' + c • (t - u')) t := sim_step_mono u' t c hc0 hc1
    _ = similarity u t := by rw [key]

/-- C8 amended: each `update_embedding` step with `0 < lr*weight ≤ 1` does not
decrease the similarity of the iterate sequence to the target, and each step
with `lr*weight < 0` does not increase it (the norm clamp never changes
similarity).  The claim's unrestricted form (`any w > 0, 0 < lr < 1`) is
false: see the counterexample with `lr*weight = 3`. -/
theorem C8_amended_monotone (u t : Vec) (w lr : ℝ) :
    (0 < lr * w → lr * w ≤ 1 → ∀ n : ℕ,
      similarity ((fun v => update_embedding v t w lr)^[n] u) t
        ≤ similarity ((fun v => update_embedding v t w lr)^[n + 1] u) t) ∧
    (lr * w < 0 → ∀ n : ℕ,
      similarity ((fun v => update_embedding v t w lr)^[n + 1] u) t
        ≤ similarity ((fun v => update_embedding v t w lr)^[n] u) t) := by
  constructor
  · intro h1 h2 n
    rw [Function.iterate_succ_apply', sim_update_eq_sim_unclamped]
    exact sim_step_mono _ t (lr * w) h1.le h2
  · intro h1 n
    rw [Function.iterate_succ_apply', sim_update_eq_sim_unclamped]
    exact sim_step_anti _ t (lr * w) h1.le

/-- Witness for C8's amended theorem at `u = 0`, `t = unitVec`, `w = 1`,
`lr = 1/2`, step `n = 0`. -/
theorem C8_amended_monotone_witness :
    similarity ((fun v => update_embedding v unitVec 1 (1/2))^[0] 0) unitVec
      ≤ similarity ((fun v => update_embedding v unitVec 1 (1/2))^[1] 0) unitVec :=
  (C8_amended_monotone 0 unitVec 1 (1/2)).1 (by norm_num) (by norm_num) 0

/-- Concrete current vector for the C8 counterexample. -/
noncomputable def c8u : Vec :=
  (9/10 : ℝ) • EuclideanSpace.single 0 1 + (1/10 : ℝ) • EuclideanSpace.single 1 1

/-- Concrete target vector for the C8 counterexample. -/
noncomputable def c8t : Vec := EuclideanSpace.single 0 1

/-- Value of the unclamped update of `c8u` toward `c8t` with `lr*weight = 3`. -/
noncomputable def c8v : Vec :=
  (6/5 : ℝ) • EuclideanSpace.single 0 1 - (1/5 : ℝ) • EuclideanSpace.single 1 1

/-- C8 counterexample: at `u = c8u`, `t = c8t`, `weight = 6 > 0`,
`lr = 1/2 ∈ (0,1)` (so `lr*weight = 3`), a single `update_embedding` strictly
DECREASES the similarity to the target, refuting the claim that the iterate
similarity increases for every `w > 0` and `0 < lr < 1`. -/
theorem C8_counterexample :
    c8u ≠ c8t ∧ (0:ℝ) < 6 ∧ (0:ℝ) < 1/2 ∧ (1/2:ℝ) < 1 ∧
    similarity (update_embedding c8u c8t 6 (1/2)) c8t < similarity c8u c8t := by
  have hinner_uu : ⟪c8u, c8u⟫ = 82/100 := by
    rw [c8u]
    simp [inner_add_left, inner_add_right, real_inner_smul_left, real_inner_smul_right,
      EuclideanSpace.inner_single_left, EuclideanSpace.single_apply]
    norm_num
  have hinner_vv : ⟪c8v, c8v⟫ = 37/25 := by
    rw [c8v]
    simp [inner_sub_left, inner_sub_right, real_inner_smul_left, real_inner_smul_right,
      EuclideanSpace.inner_single_left, EuclideanSpace.single_apply]
    norm_num
  have hinner_ut : ⟪c8u, c8t⟫ = 9/10 := by
    rw [c8u, c8t]
    simp [inner_add_left, real_inner_smul_left,
      EuclideanSpace.inner_single_left, EuclideanSpace.single_apply]
  have hinner_vt : ⟪c8v, c8t⟫ = 6/5 := by
    rw [c8v, c8t]
    simp [inner_sub_left, real_inner_smul_left,
      EuclideanSpace.inner_single_left, EuclideanSpace.single_apply]
  have hA2 : ‖c8u‖ ^ 2 = 82/100 := by rw [← real_inner_self_eq_norm_sq, hinner_uu]
  have hB2 : ‖c8v‖ ^ 2 = 37/25 := by rw [← real_inner_self_eq_norm_sq, hinner_vv]
  have hA : 0 < ‖c8u‖ := by nlinarith [norm_nonneg c8u, hA2]
  have hB : 0 < ‖c8v‖ := by nlinarith [norm_nonneg c8v, hB2]
  have hT : ‖c8t‖ = 1 := by rw [c8t, EuclideanSpace.norm_single]; norm_num
  have hne : c8u ≠ c8t := by
    intro h
    have := congrArg (fun x : Vec => ⟪x, x⟫) h
    simp only [hinner_uu] at this
    rw [h] at hinner_ut
    rw [real_inner_self_eq_norm_sq, hT] at this
    norm_num at this
  refine ⟨hne, by norm_num, by norm_num, by norm_num, ?_⟩
  have hveq : c8u + ((1/2 : ℝ) * 6) • (c8t - c8u) = c8v := by
    rw [c8u, c8t, c8v]
    match_scalars <;> norm_num
  rw [sim_update_eq_sim_unclamped, hveq]
  have hcondu : ¬(‖c8u‖ = 0 ∨ ‖c8t‖ = 0) := by
    push_neg
    exact ⟨hA.ne', by rw [hT]; norm_num⟩
  have hcondv : ¬(‖c8v‖ = 0 ∨ ‖c8t‖ = 0) := by
    push_neg
    exact ⟨hB.ne', by rw [hT]; norm_num⟩
  rw [similarity, similarity, if_neg hcondv, if_neg hcondu, hinner_vt, hinner_ut, hT,
    mul_one, mul_one, div_lt_div_iff₀ hB hA]
  -- (6/5) * ‖c8u‖ < (9/10) * ‖c8v‖, via squares: 36/25 * 82/100 < 81/100 * 37/25
  by_contra hcon
  push_neg at hcon
  have hsq := mul_self_le_mul_self (by positivity : (0:ℝ) ≤ 9/10 * ‖c8v‖) hcon
  nlinarith [hA2, hB2]

/-- The parsed pieces of a content record's `createdAt` ISO timestamp that the
source reads after `datetime.fromisoformat` succeeds: the age in hours
(`hours_old`, relative to `datetime.now`), `created_dt.hour` and
`created_dt.weekday()`. -/
structure TimeInfo where
  hoursOld : ℝ
  hour : ℕ
  weekday : ℕ

/-- A raw content record (a DynamoDB item dict).  Optional fields model dict
keys that may be absent; counters are naturals as in the stored data.
`createdAt = none` models both a missing key and an unparseable timestamp
(the source wraps the parse in `try/except: pass`).  `ctype` and `contentId`
model the `'_type'` and `'contentId'` keys that `get_recommendations` writes
into the dict. -/
structure Content where
  postId : Option String := none
  videoId : Option String := none
  userId : Option String := none
  creatorId : Option String := none
  likes : Option ℕ := none
  likeCount : Option ℕ := none
  viewCount : Option ℕ := none
  views : Option ℕ := none
  commentsCount : Option ℕ := none
  commentCount : Option ℕ := none
  shares : Option ℕ := none
  mediaType : Option String := none
  createdAt : Option TimeInfo := none
  ctype : Option String := none
  contentId : Option String := none

/-- Python `x or y` for optional strings: `None` and `''` are falsy. -/
def pyOr (a b : Option String) : Option String :=
  match a with
  | some s => if s = "" then b else some s
  | none => b

/-- `int(content.get('likes', 0) or content.get('likeCount', 0) or 0)`:
a present nonzero `likes` wins, otherwise `likeCount`, otherwise 0. -/
def likesOf (c : Content) : ℕ :=
  if c.likes.getD 0 ≠ 0 then c.likes.getD 0 else c.likeCount.getD 0

/-- `int(content.get('viewCount', 0) or content.get('views', 0) or 1)`. -/
def viewsOf (c : Content) : ℕ :=
  if c.viewCount.getD 0 ≠ 0 then c.viewCount.getD 0
  else if c.views.getD 0 ≠ 0 then c.views.getD 0
  else 1

/-- `int(content.get('commentsCount', 0) or content.get('commentCount', 0) or 0)`. -/
def commentsOf (c : Content) : ℕ :=
  if c.commentsCount.getD 0 ≠ 0 then c.commentsCount.getD 0 else c.commentCount.getD 0

/-- `int(content.get('shares', 0) or 0)`. -/
def sharesOf (c : Content) : ℕ := c.shares.getD 0

/-- `content.get('userId') or content.get('creatorId') or ''`. -/
def creatorOf (c : Content) : String := (pyOr c.userId c.creatorId).getD ""

/-- `content.get('postId') or content.get('videoId') or ''`. -/
def contentIdOf (c : Content) : String := (pyOr c.postId c.videoId).getD ""

/-- `content.get('mediaType', 'text')`. -/
def mediaTypeOf (c : Content) : String := c.mediaType.getD "text"

/-- The coordinate function of `NeuralEmbedding.create_content_embedding`
(server_advanced.py lines 114-158).  The imperative assignments hit disjoint
index ranges, so the vector is the index-case analysis below; `md5` is the
(pure) MD5 digest of the content id as an integer, supplied as a parameter. -/
noncomputable def contentFeature (md5 : String → ℕ) (c : Content) (v : ℕ) : ℝ :=
  if v = 0 then min ((likesOf c : ℝ) / 1000) 1
  else if v = 1 then min ((viewsOf c : ℝ) / 10000) 1
  else if v = 2 then min ((commentsOf c : ℝ) / 100) 1
  else if v = 3 then min ((sharesOf c : ℝ) / 50) 1
  else if v = 4 then
    ((likesOf c + commentsOf c * 2 + sharesOf c * 3 : ℕ) : ℝ) / ((max (viewsOf c) 1 : ℕ) : ℝ)
  else if v = 5 then
    match c.createdAt with
    | some ti => max 0 (1 - ti.hoursOld / 168)
    | none => 0
  else if v = 6 then
    match c.createdAt with
    | some ti => (ti.hour : ℝ) / 24
    | none => 0
  else if v = 7 then
    match c.createdAt with
    | some ti => (ti.weekday : ℝ) / 7
    | none => 0
  else if v = 10 then (if mediaTypeOf c = "video" then 1 else 0)
  else if v = 11 then
    (if mediaTypeOf c ≠ "video" ∧ mediaTypeOf c = "image" then 1 else 0)
  else if v = 12 then
    (if mediaTypeOf c ≠ "video" ∧ mediaTypeOf c ≠ "image" then 1 else 0)
  else if 30 ≤ v then
    (if contentIdOf c = "" then 0
     else (((md5 (contentIdOf c) / 2 ^ (v - 30)) % 256 : ℕ) : ℝ) / 255)
  else 0

/-- `NeuralEmbedding.create_content_embedding` as a vector. -/
noncomputable def create_content_embedding (md5 : String → ℕ) (c : Content) : Vec :=
  (WithLp.equiv 2 (Fin EMBEDDING_DIM → ℝ)).symm (fun i => contentFeature md5 c i.val)

theorem create_content_embedding_apply (md5 : String → ℕ) (c : Content)
    (i : Fin EMBEDDING_DIM) :
    create_content_embedding md5 c i = contentFeature md5 c i.val := rfl

/-- `AdvancedRecommendationEngine.score_content` (server_advanced.py lines
460-498), written as the source's sequential accumulation.  The content
embedding (obtained from `get_content_embedding` at line 466) and the
exploration draw `np.random.random() * 5` (line 496) are parameters. -/
noncomputable def score_content (user_emb content_emb : Vec) (c : Content)
    (following : List String) (noise : ℝ) : ℝ :=
  let score0 := similarity user_emb content_emb * 50
  let engagement_rate : ℝ :=
    ((likesOf c * 2 + commentsOf c * 3 : ℕ) : ℝ) / ((max (viewsOf c) 1 : ℕ) : ℝ)
  let score1 := score0 + min (engagement_rate * 20) 20
  let score2 := if creatorOf c ∈ following then score1 + 25 else score1
  let score3 :=
    match c.createdAt with
    | some ti => score2 + max 0 (15 - ti.hoursOld / 4)
    | none => score2
  score3 + noise

/-- The five-term sum exactly as spec section 4.6 words it: base similarity,
engagement boost, follow boost, recency boost, exploration noise. -/
noncomputable def scoreContentSpec (user_emb content_emb : Vec) (c : Content)
    (following : List String) (noise : ℝ) : ℝ :=
  50 * similarity user_emb content_emb
    + min 20 (20 * (((2 * likesOf c + 3 * commentsOf c : ℕ) : ℝ) / ((max (viewsOf c) 1 : ℕ) : ℝ)))
    + (if creatorOf c ∈ following then 25 else 0)
    + (match c.createdAt with
       | some ti => max 0 (15 - ti.hoursOld / 4)
       | none => 0)
    + noise

/-- C2: `score_content` equals the spec's unweighted five-term sum, and the
numeric extractions degrade to safe defaults on a record with every field
missing: counts to 0, views to 1 (and `createdAt = none`, covering the
unparseable-timestamp case, contributes no recency boost by the formula). -/
theorem C2_score_content (user_emb content_emb : Vec) (c : Content)
    (following : List String) (noise : ℝ) :
    score_content user_emb content_emb c following noise
      = scoreContentSpec user_emb content_emb c following noise ∧
    likesOf {} = 0 ∧ viewsOf {} = 1 ∧ commentsOf {} = 0 ∧ sharesOf {} = 0 := by
  refine ⟨?_, rfl, rfl, rfl, rfl⟩
  rw [score_content, scoreContentSpec]
  have hmin : min (((likesOf c * 2 + commentsOf c * 3 : ℕ) : ℝ)
        / ((max (viewsOf c) 1 : ℕ) : ℝ) * 20) 20
      = min 20 (20 * (((2 * likesOf c + 3 * commentsOf c : ℕ) : ℝ)
        / ((max (viewsOf c) 1 : ℕ) : ℝ))) := by
    rw [min_comm]
    congr 1
    push_cast
    ring
  cases hca : c.createdAt with
  | none =>
    by_cases hf : creatorOf c ∈ following
    · simp only [hca, hf, if_true, hmin]; ring
    · simp only [hca, hf, if_false, hmin]; ring
  | some ti =>
    by_cases hf : creatorOf c ∈ following
    · simp only [hca, hf, if_true, hmin]; ring
    · simp only [hca, hf, if_false, hmin]; ring

set_option maxHeartbeats 1600000 in
/-- C6 amended: `create_content_embedding` is total (never raises) on every
record; indices 0-3 lie in `[0,1]`; index 4 equals the raw engagement rate
`(likes + 2*comments + 3*shares)/max(views,1)`, which is nonnegative but NOT
clamped to `[0,1]`; indices 8, 9 and 15-29 are left at 0; and on a record
with every optional field missing every feature lies in `[0,1]`. -/
theorem C6_amended_feature_ranges (md5 : String → ℕ) (c : Content) :
    (∀ i : Fin EMBEDDING_DIM, i.val ≤ 3 →
      0 ≤ create_content_embedding md5 c i ∧ create_content_embedding md5 c i ≤ 1) ∧
    (0 ≤ create_content_embedding md5 c ⟨4, by norm_num⟩ ∧
      create_content_embedding md5 c ⟨4, by norm_num⟩
        = ((likesOf c + commentsOf c * 2 + sharesOf c * 3 : ℕ) : ℝ)
            / ((max (viewsOf c) 1 : ℕ) : ℝ)) ∧
    (∀ i : Fin EMBEDDING_DIM,
      i.val = 8 ∨ i.val = 9 ∨ (15 ≤ i.val ∧ i.val ≤ 29) →
      create_content_embedding md5 c i = 0) ∧
    (∀ i : Fin EMBEDDING_DIM,
      0 ≤ create_content_embedding md5 ({} : Content) i ∧
      create_content_embedding md5 ({} : Content) i ≤ 1) := by
  refine ⟨?_, ⟨?_, ?_⟩, ?_, ?_⟩
  · intro i hi
    rcases i with ⟨v, hlt⟩
    simp only [create_content_embedding_apply, Fin.val_mk] at hi ⊢
    interval_cases v
    · rw [show contentFeature md5 c 0 = min ((likesOf c : ℝ) / 1000) 1 from rfl]
      exact ⟨le_min (by positivity) (by norm_num), min_le_right _ _⟩
    · rw [show contentFeature md5 c 1 = min ((viewsOf c : ℝ) / 10000) 1 from rfl]
      exact ⟨le_min (by positivity) (by norm_num), min_le_right _ _⟩
    · rw [show contentFeature md5 c 2 = min ((commentsOf c : ℝ) / 100) 1 from rfl]
      exact ⟨le_min (by positivity) (by norm_num), min_le_right _ _⟩
    · rw [show contentFeature md5 c 3 = min ((sharesOf c : ℝ) / 50) 1 from rfl]
      exact ⟨le_min (by positivity) (by norm_num), min_le_right _ _⟩
  · rw [show create_content_embedding md5 c ⟨4, by norm_num⟩
        = ((likesOf c + commentsOf c * 2 + sharesOf c * 3 : ℕ) : ℝ)
            / ((max (viewsOf c) 1 : ℕ) : ℝ) from rfl]
    positivity
  · rfl
  · intro i hi
    rcases i with ⟨v, hlt⟩
    simp only [create_content_embedding_apply, Fin.val_mk] at hi ⊢
    rcases hi with h | h | ⟨h1, h2⟩
    · subst h; rfl
    · subst h; rfl
    · have h2' : v ≤ 29 := h2
      interval_cases v <;> rfl
  · intro i
    rcases i with ⟨v, hlt⟩
    simp only [create_content_embedding_apply, Fin.val_mk]
    have hlt' : v < 64 := hlt
    interval_cases v <;>
      norm_num [contentFeature, likesOf, viewsOf, commentsOf, sharesOf,
        mediaTypeOf, contentIdOf, pyOr] <;>
      try split_ifs <;> norm_num

/-- The record of the C6 counterexample: 100 likes, nothing else. -/
def c6rec : Content := { likes := some 100 }

/-- C6 counterexample: index 4 of the feature vector is the raw engagement
rate, not clamped: on a record with 100 likes and no view count it is 100,
outside the claimed range `[0,1]`. -/
theorem C6_counterexample :
    create_content_embedding (fun _ => 0) c6rec ⟨4, by norm_num⟩ = 100 ∧
    ¬(create_content_embedding (fun _ => 0) c6rec ⟨4, by norm_num⟩ ≤ 1) := by
  have h : create_content_embedding (fun _ => 0) c6rec ⟨4, by norm_num⟩ = 100 := by
    rw [create_content_embedding_apply, contentFeature]
    norm_num [show likesOf c6rec = 100 from rfl, show commentsOf c6rec = 0 from rfl,
      show sharesOf c6rec = 0 from rfl, show viewsOf c6rec = 1 from rfl]
  exact ⟨h, by rw [h]; norm_num⟩

set_option maxHeartbeats 800000 in
/-- C9 amended: in the two-candidate scenario (no follows, identical
engagement counters, newer candidate 0 hours old, older 200 hours old) the
recency boosts are 15 and 0, and for every pair of noise realizations in
`[0,5)` the newer candidate's total score exceeds the older's by more than
`10 + 50*(simNew - simOld)`.  The unconditional gap of 10 claimed by the spec
fails because the similarity terms of the two candidates need not be equal:
see the counterexample. -/
theorem C9_amended_recency_gap (u eA eB : Vec) (A B : Content) (tiA tiB : TimeInfo)
    (nA nB : ℝ)
    (hA : A.createdAt = some tiA) (htA : tiA.hoursOld = 0)
    (hB : B.createdAt = some tiB) (htB : tiB.hoursOld = 200)
    (hl : likesOf A = likesOf B) (hv : viewsOf A = viewsOf B)
    (hc : commentsOf A = commentsOf B)
    (hnA0 : 0 ≤ nA) (hnA5 : nA < 5) (hnB0 : 0 ≤ nB) (hnB5 : nB < 5) :
    max (0:ℝ) (15 - tiA.hoursOld / 4) = 15 ∧ max (0:ℝ) (15 - tiB.hoursOld / 4) = 0 ∧
    score_content u eA A [] nA - score_content u eB B [] nB
      > 10 + 50 * (similarity u eA - similarity u eB) := by
  refine ⟨by rw [htA]; norm_num, by rw [htB]; norm_num, ?_⟩
  simp only [score_content, hA, hB, htA, htB, hl, hv, hc, List.mem_nil_iff,
    if_false]
  norm_num
  linarith

/-- The newer candidate of the C9 scenario: created now, counters absent. -/
noncomputable def c9new : Content := { createdAt := some ⟨0, 0, 0⟩ }

/-- The older candidate of the C9 scenario: created 200 hours ago, with the
same (absent) counters. -/
noncomputable def c9old : Content := { createdAt := some ⟨200, 0, 0⟩ }

/-- Witness for C9's amended theorem at concrete inputs. -/
theorem C9_amended_recency_gap_witness :
    max (0:ℝ) (15 - (0:ℝ) / 4) = 15 ∧ max (0:ℝ) (15 - (200:ℝ) / 4) = 0 ∧
    score_content unitVec unitVec c9new [] 0 - score_content unitVec unitVec c9old [] 0
      > 10 + 50 * (similarity unitVec unitVec - similarity unitVec unitVec) :=
  C9_amended_recency_gap unitVec unitVec unitVec c9new c9old ⟨0, 0, 0⟩ ⟨200, 0, 0⟩ 0 0
    rfl rfl rfl rfl rfl rfl rfl (by norm_num) (by norm_num) (by norm_num) (by norm_num)

/-- The user vector of the C9 counterexample: anti-aligned with the newer
candidate's recency feature coordinate. -/
noncomputable def c9u : Vec := -EuclideanSpace.single 5 1

/-- The feature vector of the newer C9 candidate (hash digest irrelevant:
the record has no content id). -/
noncomputable def c9eA : Vec := create_content_embedding (fun _ => 0) c9new

/-- The feature vector of the older C9 candidate. -/
noncomputable def c9eB : Vec := create_content_embedding (fun _ => 0) c9old

theorem c9eA_coord_bounds (i : Fin EMBEDDING_DIM) : 0 ≤ c9eA i ∧ c9eA i ≤ 1 := by
  rcases i with ⟨v, hlt⟩
  simp only [c9eA, create_content_embedding_apply, Fin.val_mk]
  have hlt' : v < 64 := hlt
  interval_cases v <;>
    norm_num [contentFeature, likesOf, viewsOf, commentsOf, sharesOf,
      mediaTypeOf, contentIdOf, pyOr, c9new] <;>
    try split_ifs <;> norm_num

theorem c9eA_norm_bounds : 1 ≤ ‖c9eA‖ ∧ ‖c9eA‖ ≤ 8 := by
  have hsum : ‖c9eA‖ ^ 2 = ∑ i, ‖c9eA i‖ ^ 2 := by
    rw [EuclideanSpace.norm_eq, Real.sq_sqrt (by positivity)]
  have hup : ∑ i, ‖c9eA i‖ ^ 2 ≤ 64 := by
    have h := Finset.sum_le_card_nsmul Finset.univ (fun i => ‖c9eA i‖ ^ 2) 1 ?_
    · simpa [Finset.card_univ, nsmul_eq_mul] using h
    · intro i _
      obtain ⟨h0, h1⟩ := c9eA_coord_bounds i
      show ‖c9eA i‖ ^ 2 ≤ 1
      rw [Real.norm_eq_abs, sq_abs]
      nlinarith
  have hA5 : c9eA 5 = 1 := by
    rw [show c9eA 5 = max (0:ℝ) (1 - 0 / 168) from rfl]
    norm_num
  have hlow : (1:ℝ) ≤ ∑ i, ‖c9eA i‖ ^ 2 := by
    have hnn : ∀ i ∈ Finset.univ, 0 ≤ (fun j : Fin EMBEDDING_DIM => ‖c9eA j‖ ^ 2) i :=
      fun i _ => by positivity
    have h := Finset.single_le_sum hnn (Finset.mem_univ (5 : Fin EMBEDDING_DIM))
    simp only [hA5, norm_one, one_pow] at h
    exact h
  constructor
  · nlinarith [norm_nonneg c9eA, hsum]
  · nlinarith [norm_nonneg c9eA, hsum]

set_option maxHeartbeats 800000 in
/-- C9 counterexample: the scenario's records (identical counters, ages 0 and
200 hours), feature vectors built by `create_content_embedding`, a user
vector anti-aligned with the newer candidate, and noise realization 0 for
both candidates: the newer candidate's score exceeds the older's by LESS than
10, because the similarity term differs between the two candidates. -/
theorem C9_counterexample :
    likesOf c9new = likesOf c9old ∧ viewsOf c9new = viewsOf c9old ∧
    commentsOf c9new = commentsOf c9old ∧ (0:ℝ) ≤ 0 ∧ (0:ℝ) < 5 ∧
    score_content c9u c9eA c9new [] 0 - score_content c9u c9eB c9old [] 0 < 10 := by
  refine ⟨rfl, rfl, rfl, le_refl 0, by norm_num, ?_⟩
  obtain ⟨hN1, hN8⟩ := c9eA_norm_bounds
  have hNpos : (0:ℝ) < ‖c9eA‖ := by linarith
  -- the older candidate's recency feature is 0, so its similarity term vanishes
  have hB5 : c9eB 5 = 0 := by
    rw [show c9eB 5 = max (0:ℝ) (1 - 200 / 168) from rfl]
    norm_num
  have hinner_uB : ⟪c9u, c9eB⟫ = 0 := by
    rw [c9u, inner_neg_left, EuclideanSpace.inner_single_left]
    simp [hB5]
  have hsimB : similarity c9u c9eB = 0 := by
    rw [similarity]
    split_ifs with h
    · rfl
    · rw [hinner_uB, zero_div]
  have hA5 : c9eA 5 = 1 := by
    rw [show c9eA 5 = max (0:ℝ) (1 - 0 / 168) from rfl]
    norm_num
  have hinner_uA : ⟪c9u, c9eA⟫ = -1 := by
    rw [c9u, inner_neg_left, EuclideanSpace.inner_single_left]
    simp [hA5]
  have hnu : ‖c9u‖ = 1 := by
    rw [c9u, norm_neg, EuclideanSpace.norm_single, norm_one]
  have hsimA : similarity c9u c9eA = -1 / ‖c9eA‖ := by
    rw [similarity, if_neg (by push_neg; exact ⟨by rw [hnu]; norm_num, hNpos.ne'⟩),
      hinner_uA, hnu, one_mul]
  have hscoreA : score_content c9u c9eA c9new [] 0 = -1 / ‖c9eA‖ * 50 + 15 := by
    simp only [score_content, show c9new.createdAt = some ⟨0, 0, 0⟩ from rfl,
      show likesOf c9new = 0 from rfl, show commentsOf c9new = 0 from rfl,
      show viewsOf c9new = 1 from rfl, show creatorOf c9new = "" from rfl,
      List.mem_nil_iff, if_false, hsimA]
    norm_num
  have hscoreB : score_content c9u c9eB c9old [] 0 = 0 := by
    simp only [score_content, show c9old.createdAt = some ⟨200, 0, 0⟩ from rfl,
      show likesOf c9old = 0 from rfl, show commentsOf c9old = 0 from rfl,
      show viewsOf c9old = 1 from rfl, show creatorOf c9old = "" from rfl,
      List.mem_nil_iff, if_false, hsimB]
    norm_num
  rw [hscoreA, hscoreB]
  -- -50/N + 15 < 10 since N ≤ 8 gives 50/N ≥ 50/8 > 5
  have h5 : (5:ℝ) < 50 / ‖c9eA‖ := by
    rw [lt_div_iff₀ hNpos]
    linarith
  have : -1 / ‖c9eA‖ * 50 = -(50 / ‖c9eA‖) := by ring
  rw [this]
  linarith

/-- The process-global numpy PRNG of `NeuralEmbedding`: the stream of
`np.random.randn(64)` draws determined by `np.random.seed(42)` at
construction, plus a counter of how many draws have been consumed. -/
structure NeuralState where
  draws : ℕ → Vec
  k : ℕ

/-- `NeuralEmbedding.create_random_embedding` (server_advanced.py lines
108-112): the next Gaussian draw scaled by `sqrt(2/dim)` (Xavier), advancing
the shared stream.  Note that no user or content id is an argument: the
result depends only on how many draws the process has already consumed. -/
noncomputable def create_random_embedding (s : NeuralState) : Vec × NeuralState :=
  (Real.sqrt (2 / (EMBEDDING_DIM : ℝ)) • s.draws s.k, ⟨s.draws, s.k + 1⟩)

/-- One ranked entry as built by `get_recommendations` (lines 533-538):
`contentId`, `'type'` (here `kind`), rounded score, `creatorId`. -/
structure Entry where
  contentId : String
  kind : String
  score : ℝ
  creatorId : Option String

/-- Python `round(score, 2)`: rounding `100*x` to the nearest integer.
(CPython rounds ties to even in binary; no claim proved here depends on how
ties are broken.) -/
noncomputable def round2 (x : ℝ) : ℝ := (round (x * 100) : ℤ) / 100

/-- The state of `AdvancedDynamoDBClient`: the DynamoDB tables, the
in-process TTL cache (`_cache` / `_cache_times`, here paired as payload and
insertion time per key), a flag `storeUp` modelling whether DynamoDB calls
raise (every such exception is caught by the source), and the PRNG. -/
structure DBState where
  userTable : String → Option Vec
  contentTable : String → Option Vec
  followsTable : String → List String
  postsTable : List Content
  videosTable : List Content
  userCache : String → Option (Vec × ℝ)
  contentCache : String → Option (Vec × ℝ)
  followsCache : String → Option (List String × ℝ)
  postsCache : Option (List Content × ℝ)
  videosCache : Option (List Content × ℝ)
  storeUp : Bool
  neural : NeuralState

/-- Pointwise update of a string-keyed map. -/
def upd {α : Type} (f : String → α) (key : String) (v : α) : String → α :=
  fun x => if x = key then v else f x

/-- `save_user_embedding` (lines 262-277): `put_item`, then the cache update,
both inside one `try`.  On store failure the exception is caught and logged,
so the caller sees a normal return — but the cache lines were not reached, so
NEITHER the table NOR the cache changes. -/
noncomputable def save_user_embedding (σ : DBState) (user_id : String) (emb : Vec)
    (now : ℝ) : DBState :=
  if σ.storeUp then
    { σ with userTable := upd σ.userTable user_id (some emb),
             userCache := upd σ.userCache user_id (some (emb, now)) }
  else σ

/-- `save_content_embedding` (lines 308-322): same pattern. -/
noncomputable def save_content_embedding (σ : DBState) (content_id : String) (emb : Vec)
    (now : ℝ) : DBState :=
  if σ.storeUp then
    { σ with contentTable := upd σ.contentTable content_id (some emb),
             contentCache := upd σ.contentCache content_id (some (emb, now)) }
  else σ

/-- The cache-miss path of `get_user_embedding`: read the store (an error or
a missing item degrades to "absent"), else create a fresh random embedding
and save it (returning it whether or not the save succeeded). -/
noncomputable def get_user_embedding_miss (σ : DBState) (user_id : String) (now : ℝ) :
    Vec × DBState :=
  match (if σ.storeUp then σ.userTable user_id else none) with
  | some emb => (emb, { σ with userCache := upd σ.userCache user_id (some (emb, now)) })
  | none =>
    let r := create_random_embedding σ.neural
    (r.1, save_user_embedding { σ with neural := r.2 } user_id r.1 now)

/-- `get_user_embedding` (lines 238-260). -/
noncomputable def get_user_embedding (σ : DBState) (user_id : String) (now : ℝ) :
    Vec × DBState :=
  match σ.userCache user_id with
  | some (emb, t) =>
    if now - t < CACHE_TTL then (emb, σ) else get_user_embedding_miss σ user_id now
  | none => get_user_embedding_miss σ user_id now

/-- The cache-miss path of `get_content_embedding` (lines 281-306): store
read, else derive from the content record and save, else (no record: Python
`if content:` is false) a fresh random draw, returned without saving. -/
noncomputable def get_content_embedding_miss (md5 : String → ℕ) (σ : DBState)
    (content_id : String) (content : Option Content) (now : ℝ) : Vec × DBState :=
  match (if σ.storeUp then σ.contentTable content_id else none) with
  | some emb =>
    (emb, { σ with contentCache := upd σ.contentCache content_id (some (emb, now)) })
  | none =>
    match content with
    | some c =>
      let emb := create_content_embedding md5 c
      (emb, save_content_embedding σ content_id emb now)
    | none =>
      let r := create_random_embedding σ.neural
      (r.1, { σ with neural := r.2 })

/-- `get_content_embedding` (lines 281-306). -/
noncomputable def get_content_embedding (md5 : String → ℕ) (σ : DBState)
    (content_id : String) (content : Option Content) (now : ℝ) : Vec × DBState :=
  match σ.contentCache content_id with
  | some (emb, t) =>
    if now - t < CACHE_TTL then (emb, σ)
    else get_content_embedding_miss md5 σ content_id content now
  | none => get_content_embedding_miss md5 σ content_id content now

/-- The cache-miss path of `get_user_follows` (lines 412-431): query, cache
and return; on store error return `[]` without touching the cache. -/
noncomputable def get_user_follows_miss (σ : DBState) (user_id : String) (now : ℝ) :
    List String × DBState :=
  if σ.storeUp then
    (σ.followsTable user_id,
      { σ with
        followsCache := upd σ.followsCache user_id (some (σ.followsTable user_id, now)) })
  else ([], σ)

/-- `get_user_follows` (lines 412-431). -/
noncomputable def get_user_follows (σ : DBState) (user_id : String) (now : ℝ) :
    List String × DBState :=
  match σ.followsCache user_id with
  | some (l, t) =>
    if now - t < CACHE_TTL then (l, σ) else get_user_follows_miss σ user_id now
  | none => get_user_follows_miss σ user_id now

/-- The cache-miss path of `get_all_posts` (lines 374-391): scan, cache the
scanned list (the very object later returned), or return a fresh `[]` on
store error without touching the cache. -/
noncomputable def get_all_posts_miss (σ : DBState) (now : ℝ) : List Content × DBState :=
  if σ.storeUp then (σ.postsTable, { σ with postsCache := some (σ.postsTable, now) })
  else ([], σ)

/-- `get_all_posts` (lines 374-391).  On a fresh cache hit the returned list
IS the cached payload (the same Python object). -/
noncomputable def get_all_posts (σ : DBState) (now : ℝ) : List Content × DBState :=
  match σ.postsCache with
  | some (items, t) =>
    if now - t < CACHE_TTL then (items, σ) else get_all_posts_miss σ now
  | none => get_all_posts_miss σ now

/-- The cache-miss path of `get_ott_videos` (lines 393-410). -/
noncomputable def get_ott_videos_miss (σ : DBState) (now : ℝ) : List Content × DBState :=
  if σ.storeUp then (σ.videosTable, { σ with videosCache := some (σ.videosTable, now) })
  else ([], σ)

/-- `get_ott_videos` (lines 393-410). -/
noncomputable def get_ott_videos (σ : DBState) (now : ℝ) : List Content × DBState :=
  match σ.videosCache with
  | some (items, t) =>
    if now - t < CACHE_TTL then (items, σ) else get_ott_videos_miss σ now
  | none => get_ott_videos_miss σ now

/-- The `'_type'`/`'contentId'` keys written into each post dict by
`get_recommendations` (lines 514-516). -/
def tagPost (p : Content) : Content :=
  { p with ctype := some "post", contentId := some (p.postId.getD "") }

/-- The keys written into each video dict (lines 521-523). -/
def tagVideo (v : Content) : Content :=
  { v with ctype := some "video", contentId := some (v.videoId.getD "") }

/-- The miss path of post gathering: the freshly scanned list is cached and
then mutated in place; the store-error path returns a fresh `[]` that aliases
nothing, so the cache is untouched. -/
noncomputable def gather_posts_fetch (σ : DBState) (now : ℝ) : List Content × DBState :=
  if σ.storeUp then
    (σ.postsTable.map tagPost,
      { σ with postsCache := some (σ.postsTable.map tagPost, now) })
  else ([], σ)

/-- Post gathering inside `get_recommendations` (lines 512-517): the posts
list is fetched through the cache and each dict in it is mutated in place.
Because the returned list is the cached payload itself (both on a fresh hit
and just after a miss fill), the cached payload becomes the tagged list; its
insertion time is untouched. -/
noncomputable def gather_posts (σ : DBState) (now : ℝ) : List Content × DBState :=
  match σ.postsCache with
  | some (items, t) =>
    if now - t < CACHE_TTL then
      (items.map tagPost, { σ with postsCache := some (items.map tagPost, t) })
    else gather_posts_fetch σ now
  | none => gather_posts_fetch σ now

/-- The miss path of video gathering (lines 519-524). -/
noncomputable def gather_videos_fetch (σ : DBState) (now : ℝ) : List Content × DBState :=
  if σ.storeUp then
    (σ.videosTable.map tagVideo,
      { σ with videosCache := some (σ.videosTable.map tagVideo, now) })
  else ([], σ)

/-- Video gathering inside `get_recommendations` (lines 519-524). -/
noncomputable def gather_videos (σ : DBState) (now : ℝ) : List Content × DBState :=
  match σ.videosCache with
  | some (items, t) =>
    if now - t < CACHE_TTL then
      (items.map tagVideo, { σ with videosCache := some (items.map tagVideo, t) })
    else gather_videos_fetch σ now
  | none => gather_videos_fetch σ now

/-- Candidate gathering of `get_recommendations` (lines 510-527): posts and/or
videos by content-type filter, then the self-content filter
`c.get('userId') != user_id and c.get('creatorId') != user_id`. -/
noncomputable def gather_candidates (σ : DBState) (user_id content_type : String)
    (now : ℝ) : List Content × DBState :=
  let ps := if content_type = "all" ∨ content_type = "posts"
    then gather_posts σ now else ([], σ)
  let vs := if content_type = "all" ∨ content_type = "videos"
    then gather_videos ps.2 now else ([], ps.2)
  (((ps.1 ++ vs.1).filter fun c =>
      c.userId ≠ some user_id ∧ c.creatorId ≠ some user_id), vs.2)

/-- The scoring loop of `get_recommendations` (lines 530-538): each candidate
is scored by `score_content` after resolving its content embedding through
`get_content_embedding` (line 466); `noise i` is the fresh exploration draw
for the candidate at position `i`. -/
noncomputable def score_all (md5 : String → ℕ) (user_emb : Vec) (following : List String)
    (noise : ℕ → ℝ) (now : ℝ) :
    ℕ → List Content → DBState → List Entry × DBState
  | _, [], σ => ([], σ)
  | i, c :: rest, σ =>
    let r := get_content_embedding md5 σ (contentIdOf c) (some c) now
    let e : Entry :=
      { contentId := c.contentId.getD "", kind := c.ctype.getD "unknown",
        score := round2 (score_content user_emb r.1 c following (noise i)),
        creatorId := pyOr c.userId c.creatorId }
    let rest' := score_all md5 user_emb following noise now (i + 1) rest r.2
    (e :: rest'.1, rest'.2)

/-- Stable insertion into a descending-sorted list: the new entry goes before
the first entry with a strictly smaller score, i.e. after every entry with a
greater-or-equal score.  Python's `list.sort(..., reverse=True)` (line 541)
is stable in exactly this sense. -/
noncomputable def insertByScore (x : Entry) : List Entry → List Entry
  | [] => [x]
  | y :: ys => if y.score < x.score then x :: y :: ys else y :: insertByScore x ys

/-- Stable sort by descending score. -/
noncomputable def sortDesc (l : List Entry) : List Entry :=
  l.foldl (fun acc x => insertByScore x acc) []

/-- The entries of a list holding a given score, in order. -/
noncomputable def filterScore (s : ℝ) (l : List Entry) : List Entry :=
  l.filter fun e => decide (e.score = s)

/-- `get_recommendations` (lines 500-547): resolve the user embedding and the
follow list, gather candidates, score them, sort by score descending
(stable), truncate to `limit`.  Returns the entries and the final state. -/
noncomputable def get_recommendations (md5 : String → ℕ) (σ : DBState)
    (user_id : String) (limit : ℕ) (content_type : String) (noise : ℕ → ℝ)
    (now : ℝ) : List Entry × DBState :=
  let u := get_user_embedding σ user_id now
  let f := get_user_follows u.2 user_id now
  let cands := gather_candidates f.2 user_id content_type now
  let scored := score_all md5 u.1 f.1 noise now 0 cands.1 cands.2
  ((sortDesc scored.1).take limit, scored.2)

/-- The scored candidate list of a `get_recommendations` call, before the
sort and truncation (the `scored` list of lines 530-538). -/
noncomputable def scored_candidates (md5 : String → ℕ) (σ : DBState)
    (user_id content_type : String) (noise : ℕ → ℝ) (now : ℝ) : List Entry :=
  let u := get_user_embedding σ user_id now
  let f := get_user_follows u.2 user_id now
  let cands := gather_candidates f.2 user_id content_type now
  (score_all md5 u.1 f.1 noise now 0 cands.1 cands.2).1

theorem mem_insertByScore (z x : Entry) (l : List Entry) :
    z ∈ insertByScore x l ↔ z = x ∨ z ∈ l := by
  induction l with
  | nil => simp [insertByScore]
  | cons y ys ih =>
    rw [insertByScore]
    split_ifs with h
    · simp [List.mem_cons]
      try tauto
    · simp [List.mem_cons, ih]
      tauto

theorem insertByScore_sorted (x : Entry) (l : List Entry)
    (hl : l.Pairwise fun a b => b.score ≤ a.score) :
    (insertByScore x l).Pairwise fun a b => b.score ≤ a.score := by
  induction l with
  | nil => simp [insertByScore]
  | cons y ys ih =>
    rw [List.pairwise_cons] at hl
    obtain ⟨hy, hys⟩ := hl
    rw [insertByScore]
    split_ifs with h
    · refine List.Pairwise.cons ?_ (List.Pairwise.cons hy hys)
      intro z hz
      rcases List.mem_cons.mp hz with rfl | hz2
      · exact h.le
      · exact le_trans (hy z hz2) h.le
    · refine List.Pairwise.cons ?_ (ih hys)
      intro z hz
      rcases (mem_insertByScore z x ys).mp hz with rfl | hz2
      · exact not_lt.mp h
      · exact hy z hz2

theorem filterScore_nil (s : ℝ) : filterScore s [] = [] := rfl

theorem filterScore_cons (s : ℝ) (e : Entry) (l : List Entry) :
    filterScore s (e :: l) =
      if e.score = s then e :: filterScore s l else filterScore s l := by
  by_cases h : e.score = s <;> simp [filterScore, List.filter_cons, h]

theorem filterScore_eq_nil (s : ℝ) (l : List Entry) (h : ∀ z ∈ l, z.score ≠ s) :
    filterScore s l = [] := by
  induction l with
  | nil => rfl
  | cons y ys ih =>
    rw [filterScore_cons, if_neg (h y (List.mem_cons_self y ys))]
    exact ih fun z hz => h z (List.mem_cons_of_mem y hz)

theorem filterScore_insertByScore (s : ℝ) (x : Entry) (l : List Entry)
    (hl : l.Pairwise fun a b => b.score ≤ a.score) :
    filterScore s (insertByScore x l) =
      if x.score = s then filterScore s l ++ [x] else filterScore s l := by
  induction l with
  | nil =>
    rw [insertByScore]
    by_cases hx : x.score = s <;> simp [filterScore_cons, filterScore_nil, hx]
  | cons y ys ih =>
    rw [List.pairwise_cons] at hl
    obtain ⟨hy, hys⟩ := hl
    rw [insertByScore]
    by_cases hlt : y.score < x.score
    · rw [if_pos hlt]
      by_cases hx : x.score = s
      · rw [if_pos hx, filterScore_cons, if_pos hx]
        have hnil : filterScore s (y :: ys) = [] := by
          apply filterScore_eq_nil
          intro z hz heq
          have hzle : z.score ≤ y.score := by
            rcases List.mem_cons.mp hz with rfl | hz2
            · exact le_refl _
            · exact hy z hz2
          rw [heq, ← hx] at hzle
          exact absurd (lt_of_lt_of_le hlt hzle) (lt_irrefl _)
        rw [hnil]
        rfl
      · rw [if_neg hx, filterScore_cons, if_neg hx]
    · rw [if_neg hlt, filterScore_cons, filterScore_cons, ih hys]
      by_cases hysc : y.score = s <;> by_cases hx : x.score = s <;>
        simp [hysc, hx]

theorem sortDesc_aux (l : List Entry) :
    ∀ acc : List Entry, acc.Pairwise (fun a b => b.score ≤ a.score) →
    (l.foldl (fun a x => insertByScore x a) acc).Pairwise (fun a b => b.score ≤ a.score) ∧
    (∀ s, filterScore s (l.foldl (fun a x => insertByScore x a) acc)
        = filterScore s acc ++ filterScore s l) ∧
    (∀ z, z ∈ l.foldl (fun a x => insertByScore x a) acc ↔ z ∈ acc ∨ z ∈ l) := by
  induction l with
  | nil =>
    intro acc hacc
    refine ⟨hacc, fun s => by simp [filterScore_nil], fun z => by simp⟩
  | cons x xs ih =>
    intro acc hacc
    have hacc' := insertByScore_sorted x acc hacc
    obtain ⟨h1, h2, h3⟩ := ih (insertByScore x acc) hacc'
    refine ⟨h1, ?_, ?_⟩
    · intro s
      rw [List.foldl_cons, h2 s, filterScore_insertByScore s x acc hacc, filterScore_cons]
      by_cases hx : x.score = s <;> simp [hx]
    · intro z
      rw [List.foldl_cons, h3 z, mem_insertByScore]
      simp [List.mem_cons]
      tauto

theorem sortDesc_sorted (l : List Entry) :
    (sortDesc l).Pairwise fun a b => b.score ≤ a.score :=
  (sortDesc_aux l [] List.Pairwise.nil).1

theorem filterScore_sortDesc (s : ℝ) (l : List Entry) :
    filterScore s (sortDesc l) = filterScore s l := by
  have h := (sortDesc_aux l [] List.Pairwise.nil).2.1 s
  simpa [filterScore_nil] using h

theorem mem_sortDesc (z : Entry) (l : List Entry) : z ∈ sortDesc l ↔ z ∈ l := by
  have h := (sortDesc_aux l [] List.Pairwise.nil).2.2 z
  simpa using h

theorem pyOr_ne (a b : Option String) (uid : String)
    (ha : a ≠ some uid) (hb : b ≠ some uid) : pyOr a b ≠ some uid := by
  cases a with
  | none => simpa [pyOr] using hb
  | some s =>
    by_cases h : s = ""
    · simpa [pyOr, h] using hb
    · simpa [pyOr, h] using ha

theorem score_all_creator (md5 : String → ℕ) (user_emb : Vec) (following : List String)
    (noise : ℕ → ℝ) (now : ℝ) :
    ∀ (l : List Content) (i : ℕ) (σ : DBState) (e : Entry),
      e ∈ (score_all md5 user_emb following noise now i l σ).1 →
      ∃ c ∈ l, e.creatorId = pyOr c.userId c.creatorId := by
  intro l
  induction l with
  | nil =>
    intro i σ e h
    simp [score_all] at h
  | cons c rest ih =>
    intro i σ e h
    simp only [score_all] at h
    rcases List.mem_cons.mp h with rfl | h2
    · exact ⟨c, List.mem_cons_self c rest, rfl⟩
    · obtain ⟨c2, hc2, hcr⟩ := ih (i + 1) _ e h2
      exact ⟨c2, List.mem_cons_of_mem c hc2, hcr⟩

theorem gather_candidates_no_self (σ : DBState) (user_id content_type : String) (now : ℝ) :
    ∀ c ∈ (gather_candidates σ user_id content_type now).1,
      c.userId ≠ some user_id ∧ c.creatorId ≠ some user_id := by
  intro c hc
  simp only [gather_candidates] at hc
  rw [List.mem_filter] at hc
  simpa using hc.2

/-- `get_user_embedding` never touches the candidate catalog or its cache. -/
theorem get_user_embedding_catalog (σ : DBState) (uid : String) (now : ℝ) :
    (get_user_embedding σ uid now).2.postsTable = σ.postsTable ∧
    (get_user_embedding σ uid now).2.videosTable = σ.videosTable ∧
    (get_user_embedding σ uid now).2.postsCache = σ.postsCache ∧
    (get_user_embedding σ uid now).2.videosCache = σ.videosCache ∧
    (get_user_embedding σ uid now).2.storeUp = σ.storeUp := by
  have hmiss : (get_user_embedding_miss σ uid now).2.postsTable = σ.postsTable ∧
      (get_user_embedding_miss σ uid now).2.videosTable = σ.videosTable ∧
      (get_user_embedding_miss σ uid now).2.postsCache = σ.postsCache ∧
      (get_user_embedding_miss σ uid now).2.videosCache = σ.videosCache ∧
      (get_user_embedding_miss σ uid now).2.storeUp = σ.storeUp := by
    rw [get_user_embedding_miss]
    cases hif : (if σ.storeUp then σ.userTable uid else none) with
    | some emb => simp
    | none =>
      simp only [save_user_embedding, create_random_embedding]
      split_ifs <;> simp
  rw [get_user_embedding]
  cases hc : σ.userCache uid with
  | none => exact hmiss
  | some vt =>
    obtain ⟨v, t⟩ := vt
    dsimp only
    split_ifs with h
    · simp
    · exact hmiss

/-- `get_user_follows` never touches the candidate catalog or its cache. -/
theorem get_user_follows_catalog (σ : DBState) (uid : String) (now : ℝ) :
    (get_user_follows σ uid now).2.postsTable = σ.postsTable ∧
    (get_user_follows σ uid now).2.videosTable = σ.videosTable ∧
    (get_user_follows σ uid now).2.postsCache = σ.postsCache ∧
    (get_user_follows σ uid now).2.videosCache = σ.videosCache ∧
    (get_user_follows σ uid now).2.storeUp = σ.storeUp := by
  have hmiss : (get_user_follows_miss σ uid now).2.postsTable = σ.postsTable ∧
      (get_user_follows_miss σ uid now).2.videosTable = σ.videosTable ∧
      (get_user_follows_miss σ uid now).2.postsCache = σ.postsCache ∧
      (get_user_follows_miss σ uid now).2.videosCache = σ.videosCache ∧
      (get_user_follows_miss σ uid now).2.storeUp = σ.storeUp := by
    rw [get_user_follows_miss]
    split_ifs <;> simp
  rw [get_user_follows]
  cases hc : σ.followsCache uid with
  | none => exact hmiss
  | some vt =>
    obtain ⟨v, t⟩ := vt
    dsimp only
    split_ifs with h
    · simp
    · exact hmiss

/-- `get_content_embedding` never touches the candidate catalog or its cache. -/
theorem get_content_embedding_catalog (md5 : String → ℕ) (σ : DBState) (cid : String)
    (content : Option Content) (now : ℝ) :
    (get_content_embedding md5 σ cid content now).2.postsTable = σ.postsTable ∧
    (get_content_embedding md5 σ cid content now).2.videosTable = σ.videosTable ∧
    (get_content_embedding md5 σ cid content now).2.postsCache = σ.postsCache ∧
    (get_content_embedding md5 σ cid content now).2.videosCache = σ.videosCache ∧
    (get_content_embedding md5 σ cid content now).2.storeUp = σ.storeUp := by
  have hmiss : (get_content_embedding_miss md5 σ cid content now).2.postsTable = σ.postsTable ∧
      (get_content_embedding_miss md5 σ cid content now).2.videosTable = σ.videosTable ∧
      (get_content_embedding_miss md5 σ cid content now).2.postsCache = σ.postsCache ∧
      (get_content_embedding_miss md5 σ cid content now).2.videosCache = σ.videosCache ∧
      (get_content_embedding_miss md5 σ cid content now).2.storeUp = σ.storeUp := by
    rw [get_content_embedding_miss.eq_def]
    cases hif : (if σ.storeUp then σ.contentTable cid else none) with
    | some emb => simp
    | none =>
      cases content with
      | some c =>
        simp only [save_content_embedding]
        split_ifs <;> simp
      | none => simp [create_random_embedding]
  rw [get_content_embedding]
  cases hc : σ.contentCache cid with
  | none => exact hmiss
  | some vt =>
    obtain ⟨v, t⟩ := vt
    dsimp only
    split_ifs with h
    · simp
    · exact hmiss

/-- The scoring loop never touches the candidate catalog or its cache. -/
theorem score_all_catalog (md5 : String → ℕ) (user_emb : Vec) (following : List String)
    (noise : ℕ → ℝ) (now : ℝ) :
    ∀ (l : List Content) (i : ℕ) (σ : DBState),
      (score_all md5 user_emb following noise now i l σ).2.postsTable = σ.postsTable ∧
      (score_all md5 user_emb following noise now i l σ).2.videosTable = σ.videosTable ∧
      (score_all md5 user_emb following noise now i l σ).2.postsCache = σ.postsCache ∧
      (score_all md5 user_emb following noise now i l σ).2.videosCache = σ.videosCache ∧
      (score_all md5 user_emb following noise now i l σ).2.storeUp = σ.storeUp := by
  intro l
  induction l with
  | nil => intro i σ; simp [score_all]
  | cons c rest ih =>
    intro i σ
    simp only [score_all]
    obtain ⟨h1, h2, h3, h4, h5⟩ :=
      ih (i + 1) (get_content_embedding md5 σ (contentIdOf c) (some c) now).2
    obtain ⟨g1, g2, g3, g4, g5⟩ :=
      get_content_embedding_catalog md5 σ (contentIdOf c) (some c) now
    exact ⟨h1.trans g1, h2.trans g2, h3.trans g3, h4.trans g4, h5.trans g5⟩

/-- `gather_posts` leaves the video catalog and cache alone, and conversely. -/
theorem gather_posts_frame (σ : DBState) (now : ℝ) :
    (gather_posts σ now).2.videosTable = σ.videosTable ∧
    (gather_posts σ now).2.videosCache = σ.videosCache ∧
    (gather_posts σ now).2.postsTable = σ.postsTable ∧
    (gather_posts σ now).2.storeUp = σ.storeUp := by
  have hmiss : (gather_posts_fetch σ now).2.videosTable = σ.videosTable ∧
      (gather_posts_fetch σ now).2.videosCache = σ.videosCache ∧
      (gather_posts_fetch σ now).2.postsTable = σ.postsTable ∧
      (gather_posts_fetch σ now).2.storeUp = σ.storeUp := by
    rw [gather_posts_fetch]
    split_ifs <;> simp
  rw [gather_posts]
  cases hc : σ.postsCache with
  | none => exact hmiss
  | some vt =>
    obtain ⟨v, t⟩ := vt
    dsimp only
    split_ifs with h
    · simp
    · exact hmiss

theorem gather_videos_frame (σ : DBState) (now : ℝ) :
    (gather_videos σ now).2.postsTable = σ.postsTable ∧
    (gather_videos σ now).2.postsCache = σ.postsCache ∧
    (gather_videos σ now).2.videosTable = σ.videosTable ∧
    (gather_videos σ now).2.storeUp = σ.storeUp := by
  have hmiss : (gather_videos_fetch σ now).2.postsTable = σ.postsTable ∧
      (gather_videos_fetch σ now).2.postsCache = σ.postsCache ∧
      (gather_videos_fetch σ now).2.videosTable = σ.videosTable ∧
      (gather_videos_fetch σ now).2.storeUp = σ.storeUp := by
    rw [gather_videos_fetch]
    split_ifs <;> simp
  rw [gather_videos]
  cases hc : σ.videosCache with
  | none => exact hmiss
  | some vt =>
    obtain ⟨v, t⟩ := vt
    dsimp only
    split_ifs with h
    · simp
    · exact hmiss

/-- A state whose candidate catalog is empty: no stored posts or videos, and
no cached post or video list. -/
def DBState.withEmptyCatalog (σ : DBState) : DBState :=
  { σ with postsTable := [], videosTable := [], postsCache := none, videosCache := none }

theorem gather_posts_nil (σ : DBState) (now : ℝ) (h1 : σ.postsCache = none)
    (h2 : σ.postsTable = []) : (gather_posts σ now).1 = [] := by
  rw [gather_posts, h1, gather_posts_fetch, h2]
  split_ifs <;> simp

theorem gather_videos_nil (σ : DBState) (now : ℝ) (h1 : σ.videosCache = none)
    (h2 : σ.videosTable = []) : (gather_videos σ now).1 = [] := by
  rw [gather_videos, h1, gather_videos_fetch, h2]
  split_ifs <;> simp

set_option maxHeartbeats 1000000 in
/-- C4: `get_recommendations` never returns an entry whose creator id is the
requesting user's id; its output is sorted by descending score with ties kept
in the scored candidates' arrival order (for every score value, the output's
entries of that score are a prefix of the scored list's entries of that
score, in order); it returns at most `limit` entries; and an empty candidate
catalog yields `[]`, not an error. -/
theorem C4_get_recommendations (md5 : String → ℕ) (σ : DBState) (user_id : String)
    (limit : ℕ) (content_type : String) (noise : ℕ → ℝ) (now : ℝ) :
    (∀ e ∈ (get_recommendations md5 σ user_id limit content_type noise now).1,
        e.creatorId ≠ some user_id) ∧
    ((get_recommendations md5 σ user_id limit content_type noise now).1.Pairwise
        fun a b => b.score ≤ a.score) ∧
    (∀ s : ℝ, ∃ rest : List Entry,
        filterScore s (get_recommendations md5 σ user_id limit content_type noise now).1
            ++ rest
          = filterScore s (scored_candidates md5 σ user_id content_type noise now)) ∧
    (get_recommendations md5 σ user_id limit content_type noise now).1.length ≤ limit ∧
    (get_recommendations md5 (DBState.withEmptyCatalog σ) user_id limit content_type
        noise now).1 = [] := by
  have hout : (get_recommendations md5 σ user_id limit content_type noise now).1
      = (sortDesc (scored_candidates md5 σ user_id content_type noise now)).take limit :=
    rfl
  refine ⟨?_, ?_, ?_, ?_, ?_⟩
  · intro e he
    rw [hout] at he
    have he2 : e ∈ sortDesc (scored_candidates md5 σ user_id content_type noise now) :=
      List.take_subset limit _ he
    have he3 := (mem_sortDesc e _).mp he2
    obtain ⟨c, hc, hcr⟩ := score_all_creator md5
      (get_user_embedding σ user_id now).1
      (get_user_follows (get_user_embedding σ user_id now).2 user_id now).1
      noise now
      (gather_candidates (get_user_follows (get_user_embedding σ user_id now).2
        user_id now).2 user_id content_type now).1
      0
      (gather_candidates (get_user_follows (get_user_embedding σ user_id now).2
        user_id now).2 user_id content_type now).2
      e (by exact he3)
    obtain ⟨hu, hcrid⟩ := gather_candidates_no_self _ user_id content_type now c hc
    rw [hcr]
    exact pyOr_ne _ _ _ hu hcrid
  · rw [hout]
    exact (sortDesc_sorted _).sublist (List.take_sublist limit _)
  · intro s
    refine ⟨filterScore s ((sortDesc (scored_candidates md5 σ user_id content_type
      noise now)).drop limit), ?_⟩
    have hsplit : filterScore s ((sortDesc (scored_candidates md5 σ user_id content_type
          noise now)).take limit)
        ++ filterScore s ((sortDesc (scored_candidates md5 σ user_id content_type
          noise now)).drop limit)
        = filterScore s (sortDesc (scored_candidates md5 σ user_id content_type
          noise now)) := by
      rw [filterScore, filterScore, filterScore, ← List.filter_append,
        List.take_append_drop]
    rw [hout, hsplit, filterScore_sortDesc]
  · rw [hout, List.length_take]
    exact min_le_left _ _
  · simp only [get_recommendations]
    have h1 := get_user_embedding_catalog (DBState.withEmptyCatalog σ) user_id now
    have h2 := get_user_follows_catalog
      (get_user_embedding (DBState.withEmptyCatalog σ) user_id now).2 user_id now
    have hpc : (get_user_follows (get_user_embedding (DBState.withEmptyCatalog σ)
        user_id now).2 user_id now).2.postsCache = none := by
      rw [h2.2.2.1, h1.2.2.1]; rfl
    have hpt : (get_user_follows (get_user_embedding (DBState.withEmptyCatalog σ)
        user_id now).2 user_id now).2.postsTable = [] := by
      rw [h2.1, h1.1]; rfl
    have hvc : (get_user_follows (get_user_embedding (DBState.withEmptyCatalog σ)
        user_id now).2 user_id now).2.videosCache = none := by
      rw [h2.2.2.2.1, h1.2.2.2.1]; rfl
    have hvt : (get_user_follows (get_user_embedding (DBState.withEmptyCatalog σ)
        user_id now).2 user_id now).2.videosTable = [] := by
      rw [h2.2.1, h1.2.1]; rfl
    have hcands : (gather_candidates (get_user_follows (get_user_embedding
        (DBState.withEmptyCatalog σ) user_id now).2 user_id now).2 user_id
        content_type now).1 = [] := by
      simp only [gather_candidates]
      by_cases hp : content_type = "all" ∨ content_type = "posts" <;>
        by_cases hv : content_type = "all" ∨ content_type = "videos" <;>
        simp only [hp, hv, if_true, if_false]
      · rw [gather_posts_nil _ now hpc hpt,
          gather_videos_nil _ now (by rw [(gather_posts_frame _ now).2.1]; exact hvc)
            (by rw [(gather_posts_frame _ now).1]; exact hvt)]
        rfl
      · rw [gather_posts_nil _ now hpc hpt]
        rfl
      · rw [gather_videos_nil _ now hvc hvt]
        rfl
      · rfl
    rw [hcands]
    simp [score_all, sortDesc]

/-- C5 amended: both save paths are total — a store error is caught and the
caller sees a normal return.  On success the external table is written and
the cache updated (store first, then cache).  On store failure NOTHING
changes: in particular the cache is NOT updated with the new vector (this
corrects the claim).  Consequently a changed cache entry always implies the
store write succeeded. -/
theorem C5_amended_save_write_through (σ : DBState) (uid cid : String)
    (uemb cemb : Vec) (now : ℝ) :
    (σ.storeUp = true →
      (save_user_embedding σ uid uemb now).userTable uid = some uemb ∧
      (save_user_embedding σ uid uemb now).userCache uid = some (uemb, now) ∧
      (save_content_embedding σ cid cemb now).contentTable cid = some cemb ∧
      (save_content_embedding σ cid cemb now).contentCache cid = some (cemb, now)) ∧
    (σ.storeUp = false →
      save_user_embedding σ uid uemb now = σ ∧
      save_content_embedding σ cid cemb now = σ) ∧
    ((save_user_embedding σ uid uemb now).userCache uid ≠ σ.userCache uid →
      (save_user_embedding σ uid uemb now).userTable uid = some uemb) ∧
    ((save_content_embedding σ cid cemb now).contentCache cid ≠ σ.contentCache cid →
      (save_content_embedding σ cid cemb now).contentTable cid = some cemb) := by
  refine ⟨?_, ?_, ?_, ?_⟩
  · intro h
    simp [save_user_embedding, save_content_embedding, upd, h]
  · intro h
    simp [save_user_embedding, save_content_embedding, h]
  · intro hne
    by_cases hs : σ.storeUp
    · simp [save_user_embedding, upd, hs]
    · exact absurd (by simp [save_user_embedding, hs] :
        (save_user_embedding σ uid uemb now).userCache uid = σ.userCache uid) hne
  · intro hne
    by_cases hs : σ.storeUp
    · simp [save_content_embedding, upd, hs]
    · exact absurd (by simp [save_content_embedding, hs] :
        (save_content_embedding σ cid cemb now).contentCache cid = σ.contentCache cid) hne

/-- A state with the store down and a stale zero vector cached (at insertion
time 0) for user "u1" and content "c1". -/
noncomputable def c5state : DBState :=
  { userTable := fun _ => none, contentTable := fun _ => none,
    followsTable := fun _ => [], postsTable := [], videosTable := [],
    userCache := fun k => if k = "u1" then some (0, 0) else none,
    contentCache := fun k => if k = "c1" then some (0, 0) else none,
    followsCache := fun _ => none, postsCache := none, videosCache := none,
    storeUp := false, neural := ⟨fun _ => 0, 0⟩ }

/-- C5 counterexample: with the store down, saving a new vector leaves the
stale cache entry `(0, 0)` in place — the cache is NOT updated with the new
vector (`(unitVec, 1)`), refuting the claim's "cache is still updated". -/
theorem C5_counterexample :
    c5state.storeUp = false ∧
    (save_user_embedding c5state "u1" unitVec 1).userCache "u1" = some (0, 0) ∧
    (save_content_embedding c5state "c1" unitVec 1).contentCache "c1" = some (0, 0) ∧
    ¬((save_user_embedding c5state "u1" unitVec 1).userCache "u1"
        = some (unitVec, 1)) ∧
    ¬((save_content_embedding c5state "c1" unitVec 1).contentCache "c1"
        = some (unitVec, 1)) := by
  have hu : (save_user_embedding c5state "u1" unitVec 1).userCache "u1" = some (0, 0) := by
    simp [save_user_embedding, c5state]
  have hc : (save_content_embedding c5state "c1" unitVec 1).contentCache "c1"
      = some (0, 0) := by
    simp [save_content_embedding, c5state]
  refine ⟨rfl, hu, hc, ?_, ?_⟩
  · intro h
    rw [hu] at h
    have := congrArg (fun o : Option (Vec × ℝ) => (o.getD (0, 0)).2) h
    norm_num at this
  · intro h
    rw [hc] at h
    have := congrArg (fun o : Option (Vec × ℝ) => (o.getD (0, 0)).2) h
    norm_num at this

set_option maxHeartbeats 600000 in
/-- C3 (code_bug): `create_random_embedding` takes no seed key at all.  On
the store-miss path, `get_user_embedding` returns the NEXT draw of the
process-global stream (scaled by `sqrt(2/dim)`, the one part of the claim
the code honors) and advances the stream, so two calls for the SAME user id
with the store unavailable return consecutive draws: they differ whenever
consecutive stream draws differ, and which vector a user receives depends on
the call order, not on the user id. -/
theorem C3_create_random_embedding (σ : DBState) (uid : String) (now : ℝ)
    (hstore : σ.storeUp = false) (hcache : σ.userCache uid = none) :
    (get_user_embedding σ uid now).1
        = Real.sqrt (2 / (EMBEDDING_DIM : ℝ)) • σ.neural.draws σ.neural.k ∧
    (get_user_embedding σ uid now).2.neural.k = σ.neural.k + 1 ∧
    (get_user_embedding (get_user_embedding σ uid now).2 uid now).1
        = Real.sqrt (2 / (EMBEDDING_DIM : ℝ)) • σ.neural.draws (σ.neural.k + 1) ∧
    (σ.neural.draws σ.neural.k ≠ σ.neural.draws (σ.neural.k + 1) →
      (get_user_embedding σ uid now).1
        ≠ (get_user_embedding (get_user_embedding σ uid now).2 uid now).1) := by
  have h1 : get_user_embedding σ uid now
      = (Real.sqrt (2 / (EMBEDDING_DIM : ℝ)) • σ.neural.draws σ.neural.k,
         { σ with neural := ⟨σ.neural.draws, σ.neural.k + 1⟩ }) := by
    rw [get_user_embedding, hcache, get_user_embedding_miss, hstore]
    simp [create_random_embedding, save_user_embedding, hstore]
  have h2 : get_user_embedding (get_user_embedding σ uid now).2 uid now
      = (Real.sqrt (2 / (EMBEDDING_DIM : ℝ)) • σ.neural.draws (σ.neural.k + 1),
         { σ with neural := ⟨σ.neural.draws, σ.neural.k + 2⟩ }) := by
    rw [h1, get_user_embedding, hcache, get_user_embedding_miss, hstore]
    simp [create_random_embedding, save_user_embedding, hstore]
  refine ⟨by rw [h1], by rw [h1], by rw [h2], ?_⟩
  intro hne heq
  rw [h2] at heq
  rw [h1] at heq
  simp only at heq
  have hc : Real.sqrt (2 / (EMBEDDING_DIM : ℝ)) ≠ 0 := by
    have : (0:ℝ) < 2 / (EMBEDDING_DIM : ℝ) := by norm_num [EMBEDDING_DIM]
    exact (Real.sqrt_pos.mpr this).ne'
  exact hne (smul_right_injective Vec hc heq)

/-- A concrete store-down state whose Gaussian stream is the constant
vectors 0, 1, 2, ...: consecutive draws differ. -/
noncomputable def c3state : DBState :=
  { userTable := fun _ => none, contentTable := fun _ => none,
    followsTable := fun _ => [], postsTable := [], videosTable := [],
    userCache := fun _ => none, contentCache := fun _ => none,
    followsCache := fun _ => none, postsCache := none, videosCache := none,
    storeUp := false,
    neural := ⟨fun n => (WithLp.equiv 2 (Fin EMBEDDING_DIM → ℝ)).symm fun _ => (n : ℝ), 0⟩ }

/-- Witness for C3 at the concrete state `c3state` and user id "u1": the two
vectors returned for the same user differ. -/
theorem C3_create_random_embedding_witness :
    (get_user_embedding c3state "u1" 0).1
      ≠ (get_user_embedding (get_user_embedding c3state "u1" 0).2 "u1" 0).1 := by
  have h := C3_create_random_embedding c3state "u1" 0 rfl rfl
  refine h.2.2.2 ?_
  intro heq
  have h0 := congrFun (congrArg (WithLp.equiv 2 (Fin EMBEDDING_DIM → ℝ)) heq) 0
  simp only [c3state, Equiv.apply_symm_apply] at h0
  norm_num at h0

set_option maxHeartbeats 1000000 in
/-- C10: a ranking pass over a fresh posts/videos cache rewrites the cached
record lists in place, adding `'_type'` (`ctype`) and `'contentId'` to every
record while keeping the insertion times; a later `get_all_posts` /
`get_ott_videos` within the TTL window returns those already-tagged records;
and tagging changes no record field other than `ctype` and `contentId`. -/
theorem C10_cache_mutation (md5 : String → ℕ) (σ : DBState) (user_id : String)
    (limit : ℕ) (noise : ℕ → ℝ) (now now2 : ℝ)
    (posts videos : List Content) (tp tv : ℝ)
    (hp : σ.postsCache = some (posts, tp)) (hfp : now - tp < CACHE_TTL)
    (hv : σ.videosCache = some (videos, tv)) (hfv : now - tv < CACHE_TTL)
    (hfp2 : now2 - tp < CACHE_TTL) (hfv2 : now2 - tv < CACHE_TTL) :
    (get_recommendations md5 σ user_id limit "all" noise now).2.postsCache
        = some (posts.map tagPost, tp) ∧
    (get_recommendations md5 σ user_id limit "all" noise now).2.videosCache
        = some (videos.map tagVideo, tv) ∧
    (get_all_posts (get_recommendations md5 σ user_id limit "all" noise now).2 now2).1
        = posts.map tagPost ∧
    (get_ott_videos (get_recommendations md5 σ user_id limit "all" noise now).2 now2).1
        = videos.map tagVideo ∧
    (∀ p : Content, (tagPost p).postId = p.postId ∧ (tagPost p).videoId = p.videoId ∧
      (tagPost p).userId = p.userId ∧ (tagPost p).creatorId = p.creatorId ∧
      (tagPost p).likes = p.likes ∧ (tagPost p).likeCount = p.likeCount ∧
      (tagPost p).viewCount = p.viewCount ∧ (tagPost p).views = p.views ∧
      (tagPost p).commentsCount = p.commentsCount ∧
      (tagPost p).commentCount = p.commentCount ∧ (tagPost p).shares = p.shares ∧
      (tagPost p).mediaType = p.mediaType ∧ (tagPost p).createdAt = p.createdAt ∧
      (tagPost p).ctype = some "post" ∧
      (tagPost p).contentId = some (p.postId.getD "")) ∧
    (∀ v : Content, (tagVideo v).postId = v.postId ∧ (tagVideo v).videoId = v.videoId ∧
      (tagVideo v).userId = v.userId ∧ (tagVideo v).creatorId = v.creatorId ∧
      (tagVideo v).likes = v.likes ∧ (tagVideo v).likeCount = v.likeCount ∧
      (tagVideo v).viewCount = v.viewCount ∧ (tagVideo v).views = v.views ∧
      (tagVideo v).commentsCount = v.commentsCount ∧
      (tagVideo v).commentCount = v.commentCount ∧ (tagVideo v).shares = v.shares ∧
      (tagVideo v).mediaType = v.mediaType ∧ (tagVideo v).createdAt = v.createdAt ∧
      (tagVideo v).ctype = some "video" ∧
      (tagVideo v).contentId = some (v.videoId.getD "")) := by
  have h1 := get_user_embedding_catalog σ user_id now
  have h2 := get_user_follows_catalog (get_user_embedding σ user_id now).2 user_id now
  set σ2 := (get_user_follows (get_user_embedding σ user_id now).2 user_id now).2
    with hσ2
  have hp2 : σ2.postsCache = some (posts, tp) := by
    rw [h2.2.2.1, h1.2.2.1]; exact hp
  have hv2 : σ2.videosCache = some (videos, tv) := by
    rw [h2.2.2.2.1, h1.2.2.2.1]; exact hv
  have hgp : gather_posts σ2 now
      = (posts.map tagPost, { σ2 with postsCache := some (posts.map tagPost, tp) }) := by
    rw [gather_posts, hp2]
    dsimp only
    rw [if_pos hfp]
  have hgpv : (gather_posts σ2 now).2.videosCache = some (videos, tv) := by
    rw [hgp]; exact hv2
  have hgv : gather_videos (gather_posts σ2 now).2 now
      = (videos.map tagVideo,
         { (gather_posts σ2 now).2 with
             videosCache := some (videos.map tagVideo, tv) }) := by
    rw [gather_videos, hgpv]
    dsimp only
    rw [if_pos hfv]
  have hgc : gather_candidates σ2 user_id "all" now
      = (((posts.map tagPost ++ videos.map tagVideo).filter fun c =>
            c.userId ≠ some user_id ∧ c.creatorId ≠ some user_id),
         { σ2 with postsCache := some (posts.map tagPost, tp),
                   videosCache := some (videos.map tagVideo, tv) }) := by
    simp only [gather_candidates, true_or, if_true]
    rw [hgv, hgp]
  have hfinal : (get_recommendations md5 σ user_id limit "all" noise now).2
      = (score_all md5 (get_user_embedding σ user_id now).1
          (get_user_follows (get_user_embedding σ user_id now).2 user_id now).1
          noise now 0
          ((posts.map tagPost ++ videos.map tagVideo).filter fun c =>
            c.userId ≠ some user_id ∧ c.creatorId ≠ some user_id)
          { σ2 with postsCache := some (posts.map tagPost, tp),
                    videosCache := some (videos.map tagVideo, tv) }).2 := by
    simp only [get_recommendations, hgc]
  have hcat := score_all_catalog md5 (get_user_embedding σ user_id now).1
    (get_user_follows (get_user_embedding σ user_id now).2 user_id now).1
    noise now
    ((posts.map tagPost ++ videos.map tagVideo).filter fun c =>
      c.userId ≠ some user_id ∧ c.creatorId ≠ some user_id) 0
    { σ2 with postsCache := some (posts.map tagPost, tp),
              videosCache := some (videos.map tagVideo, tv) }
  have hpca : (get_recommendations md5 σ user_id limit "all" noise now).2.postsCache
      = some (posts.map tagPost, tp) := by
    rw [hfinal, hcat.2.2.1]
  have hvca : (get_recommendations md5 σ user_id limit "all" noise now).2.videosCache
      = some (videos.map tagVideo, tv) := by
    rw [hfinal, hcat.2.2.2.1]
  refine ⟨hpca, hvca, ?_, ?_, ?_, ?_⟩
  · rw [get_all_posts, hpca]
    dsimp only
    rw [if_pos hfp2]
  · rw [get_ott_videos, hvca]
    dsimp only
    rw [if_pos hfv2]
  · intro p
    exact ⟨rfl, rfl, rfl, rfl, rfl, rfl, rfl, rfl, rfl, rfl, rfl, rfl, rfl, rfl, rfl⟩
  · intro v
    exact ⟨rfl, rfl, rfl, rfl, rfl, rfl, rfl, rfl, rfl, rfl, rfl, rfl, rfl, rfl, rfl⟩

/-- A cached post record owned by "u2", used to instantiate C10. -/
def c10post : Content := { postId := some "p1", userId := some "u2" }

/-- A state whose posts cache holds `[c10post]` and whose videos cache holds
`[]`, both inserted at time 0, with the store up. -/
noncomputable def c10state : DBState :=
  { userTable := fun _ => none, contentTable := fun _ => none,
    followsTable := fun _ => [], postsTable := [], videosTable := [],
    userCache := fun _ => none, contentCache := fun _ => none,
    followsCache := fun _ => none,
    postsCache := some ([c10post], 0), videosCache := some ([], 0),
    storeUp := true, neural := ⟨fun _ => 0, 0⟩ }

/-- Witness for C10 at `c10state`: after one ranking pass at time 1, the
cached posts payload is the tagged record, observed by a later
`get_all_posts` at time 2. -/
theorem C10_cache_mutation_witness :
    (get_recommendations (fun _ => 0) c10state "u1" 20 "all" (fun _ => 0) 1).2.postsCache
        = some ([tagPost c10post], 0) ∧
    (get_all_posts (get_recommendations (fun _ => 0) c10state "u1" 20 "all"
        (fun _ => 0) 1).2 2).1 = [tagPost c10post] := by
  have h := C10_cache_mutation (fun _ => 0) c10state "u1" 20 (fun _ => 0) 1 2
    [c10post] [] 0 0 rfl (by norm_num [CACHE_TTL]) rfl (by norm_num [CACHE_TTL])
    (by norm_num [CACHE_TTL]) (by norm_num [CACHE_TTL])
  exact ⟨h.1, h.2.2.1⟩

end MindFlow
